import Mathlib

/-!
Verification development for the NightyAutoSend "Message Scheduler" script
(src/main.py).  The Python code is shallowly embedded: dataclasses become
structures, Python dicts become association lists (in insertion order, with
distinct keys maintained by the operations themselves), numbers become
`Int`/`ℚ`, raised exceptions become `Option`/`Except` results, and the
asyncio task registry is made explicit (spawned/cancelled loop histories)
so that liveness of repeat loops can be stated.
-/

set_option maxRecDepth 4000

/-- Embeds the `ScheduledTask` dataclass (src/main.py lines 17-22). -/
structure ScheduledTask where
  name : String
  channel_id : Int
  delay : ℚ
  message : String
deriving DecidableEq, Repr

/-- A value stored in the key-value config store.  Python values that can
appear in a stored entry: ints, floats, strings, or some other non-numeric
object (represented by `vNull`, standing for e.g. `None`, on which `int()` /
`float()` raise `TypeError`). -/
inductive ConfigVal where
  | vInt (i : Int)
  | vFloat (q : ℚ)
  | vStr (s : String)
  | vNull
deriving DecidableEq, Repr

/-- A raw stored entry: a Python dict from field name to value. -/
abbrev RawEntry := List (String × ConfigVal)

/-- Python dict lookup `d.get(k)` on an association list (first match). -/
def lookupD {α : Type} (d : List (String × α)) (k : String) : Option α :=
  match d with
  | [] => none
  | (k', v) :: rest => if k' = k then some v else lookupD rest k

/-- Python dict assignment `d[k] = v`: replaces the value in place if the key
is present (keeping insertion order), otherwise appends the new pair. -/
def dictInsert {α : Type} (d : List (String × α)) (k : String) (v : α) :
    List (String × α) :=
  if d.any (fun p => p.1 = k) then
    d.map (fun p => if p.1 = k then (k, v) else p)
  else
    d ++ [(k, v)]

/-- Python dict removal `d.pop(k, None)` (the removal part). -/
def removeKey {α : Type} (d : List (String × α)) (k : String) :
    List (String × α) :=
  d.filter (fun p => p.1 ≠ k)

/-- Strip characters satisfying `p` from both ends of a character list
(Python `str.strip`). -/
def pyStrip (p : Char → Bool) (l : List Char) : List Char :=
  ((l.dropWhile p).reverse.dropWhile p).reverse

/-- Strip characters satisfying `p` from the left end (Python `str.lstrip`). -/
def pyLStrip (p : Char → Bool) (l : List Char) : List Char :=
  l.dropWhile p

/-- The numeric value of a digit list (most significant first). -/
def digitsVal (l : List Char) : Nat :=
  l.foldl (fun a c => a * 10 + (c.toNat - 48)) 0

/-- All characters are decimal digits. -/
def allDigits (l : List Char) : Bool :=
  l.all (fun c => c.isDigit)

/-- Read an optional leading sign; returns `-1`/`1` and the rest. -/
def readSign (l : List Char) : Int × List Char :=
  match l with
  | '-' :: rest => (-1, rest)
  | '+' :: rest => (1, rest)
  | _ => (1, l)

/-- Python `int(s)` on a string: strips whitespace, optional sign, then a
nonempty digit string; anything else raises `ValueError` (`none` here). -/
def pyIntOfString (s : String) : Option Int :=
  let l := pyStrip (fun c => c.isWhitespace) s.toList
  let (sign, body) := readSign l
  if body ≠ [] ∧ allDigits body then some (sign * (digitsVal body : Int))
  else none

/-- Split a character list at the first occurrence of `c`. -/
def splitFirst (c : Char) : List Char → Option (List Char × List Char)
  | [] => none
  | x :: xs =>
    if x = c then some ([], xs)
    else (splitFirst c xs).map (fun p => (x :: p.1, p.2))

/-- The fractional value contributed by digits after the decimal point. -/
def fracVal (l : List Char) : ℚ :=
  (digitsVal l : ℚ) / ((10 : ℚ) ^ l.length)

/-- Python `float(s)` on a string (decimal forms: optional sign, digits with
at most one point, at least one digit).  Non-numeric strings raise
`ValueError` (`none` here). -/
def pyFloatOfString (s : String) : Option ℚ :=
  let l := pyStrip (fun c => c.isWhitespace) s.toList
  let (sign, body) := readSign l
  match splitFirst '.' body with
  | none =>
    if body ≠ [] ∧ allDigits body then some ((sign : ℚ) * (digitsVal body : ℚ))
    else none
  | some (ip, fp) =>
    if (ip ≠ [] ∨ fp ≠ []) ∧ allDigits ip ∧ allDigits fp then
      some ((sign : ℚ) * ((digitsVal ip : ℚ) + fracVal fp))
    else none

/-- Python `int(v)` on a stored value: identity on ints, truncation toward
zero on floats, string parsing on strings, `TypeError` on other objects. -/
def pyInt (v : ConfigVal) : Option Int :=
  match v with
  | .vInt i => some i
  | .vFloat q => some (Int.tdiv q.num (q.den : Int))
  | .vStr s => pyIntOfString s
  | .vNull => none

/-- Python `float(v)` on a stored value. -/
def pyFloat (v : ConfigVal) : Option ℚ :=
  match v with
  | .vInt i => some (i : ℚ)
  | .vFloat q => some q
  | .vStr s => pyFloatOfString s
  | .vNull => none

/-- Python `str(v)` on a stored value (total; never raises). -/
def pyStr (v : ConfigVal) : String :=
  match v with
  | .vInt i => toString i
  | .vFloat q => toString q
  | .vStr s => s
  | .vNull => "None"

/-- Embeds `ScheduledTask.to_config` (src/main.py lines 24-29). -/
def toConfig (t : ScheduledTask) : RawEntry :=
  [("channel_id", ConfigVal.vInt t.channel_id),
   ("delay", ConfigVal.vFloat t.delay),
   ("message", ConfigVal.vStr t.message)]

/-- The body of the `try` block in `TaskManager._load_tasks` for one stored
entry (src/main.py lines 42-48): `ScheduledTask(name=name,
channel_id=int(raw["channel_id"]), delay=float(raw["delay"]),
message=str(raw["message"]))`, with `KeyError`/`TypeError`/`ValueError`
turned into `none`. -/
def parseStored (name : String) (raw : RawEntry) : Option ScheduledTask :=
  match lookupD raw "channel_id" with
  | none => none
  | some cv =>
    match pyInt cv with
    | none => none
    | some ch =>
      match lookupD raw "delay" with
      | none => none
      | some dv =>
        match pyFloat dv with
        | none => none
        | some d =>
          match lookupD raw "message" with
          | none => none
          | some mv => some ⟨name, ch, d, pyStr mv⟩

/-- Embeds the loop of `TaskManager._load_tasks` (src/main.py lines 37-52):
each stored entry is parsed; malformed ones are skipped (`continue`). -/
def loadTasks : List (String × RawEntry) → List (String × ScheduledTask)
  | [] => []
  | (n, raw) :: rest =>
    match parseStored n raw with
    | none => loadTasks rest
    | some t => (n, t) :: loadTasks rest

/-- Embeds `TaskManager.save` (src/main.py lines 54-58): writes
`{name: task.to_config() for name, task in self.tasks.items()}`. -/
def saveTasks (tasks : List (String × ScheduledTask)) :
    List (String × RawEntry) :=
  tasks.map (fun p => (p.1, toConfig p.2))

/-!
## The Task Manager

`TaskManager` holds `self.running : Dict[str, asyncio.Task]` and
`self.tasks : Dict[str, ScheduledTask]`.  The asyncio layer is made explicit:
loop handles are numbered by a counter `nextId`, every spawned loop is
recorded in `spawnedAll`, and every loop on which `.cancel()` was called is
recorded in `cancelled`.  A loop is *live* when it was spawned and never
cancelled.  The persisted config store is carried in `store`.
-/

/-- The state owned by a `TaskManager` (src/main.py lines 31-34), together
with the explicit asyncio bookkeeping and the persisted store. -/
structure ManagerState where
  running : List (String × Nat)
  tasks : List (String × ScheduledTask)
  store : List (String × RawEntry)
  nextId : Nat
  cancelled : List Nat
  spawnedAll : List (String × Nat)
deriving Repr

/-- Embeds `TaskManager.__init__` (src/main.py lines 32-34): `running = {}`,
`tasks = self._load_tasks()`; the store is read, not written. -/
def initManager (stored : List (String × RawEntry)) : ManagerState :=
  { running := [], tasks := loadTasks stored, store := stored,
    nextId := 0, cancelled := [], spawnedAll := [] }

/-- The error message raised when the channel cannot be resolved
(src/main.py lines 63-66). -/
def chanErr (channelId : Int) : String :=
  "Channel " ++ toString channelId ++
    " is not accessible. Try re-inviting the bot or checking permissions."

/-- Embeds `TaskManager.start` (src/main.py lines 61-82).  `resolve` models
`ctx.bot.get_channel`: `true` when the channel resolves.  A raised
`ValueError` becomes `some msg`; the returned state is the manager state
after the call (the raise happens before any mutation). -/
def start (resolve : Int → Bool) (st : ManagerState) (task : ScheduledTask) :
    Option String × ManagerState :=
  if resolve task.channel_id then
    let oldLoop := lookupD st.running task.name
    let cancelled' := st.cancelled ++ oldLoop.toList
    let lid := st.nextId
    let tasks' := dictInsert st.tasks task.name task
    (none,
     { running := dictInsert st.running task.name lid,
       tasks := tasks',
       store := saveTasks tasks',
       nextId := lid + 1,
       cancelled := cancelled',
       spawnedAll := st.spawnedAll ++ [(task.name, lid)] })
  else
    (some (chanErr task.channel_id), st)

/-- Embeds `TaskManager.stop` (src/main.py lines 84-96). -/
def stop (st : ManagerState) (name : String) : Bool × ManagerState :=
  let popped := lookupD st.running name
  let running' := removeKey st.running name
  let cancelled' := st.cancelled ++ popped.toList
  if (lookupD st.tasks name).isSome then
    let tasks' := removeKey st.tasks name
    (true,
     { st with running := running', cancelled := cancelled',
               tasks := tasks', store := saveTasks tasks' })
  else
    (popped.isSome,
     { st with running := running', cancelled := cancelled' })

/-- Embeds `TaskManager.get` (src/main.py lines 98-99). -/
def getTask (st : ManagerState) (name : String) : Option ScheduledTask :=
  lookupD st.tasks name

/-- The user-visible outcome of the `.sendmessages` command. -/
inductive CmdOutcome where
  | scheduled
  | conflictMsg
  | errorMsg (e : String)
deriving DecidableEq, Repr

/-- Embeds the registration path of the `start_send` command
(src/main.py lines 224-264), after parsing: the `manager.get` name-conflict
check, then `manager.start`, with any raised exception reported as an error
message (the `except` block). -/
def registerCmd (resolve : Int → Bool) (st : ManagerState)
    (task : ScheduledTask) : CmdOutcome × ManagerState :=
  match lookupD st.tasks task.name with
  | some _ => (.conflictMsg, st)
  | none =>
    match start resolve st task with
    | (some e, st') => (.errorMsg e, st')
    | (none, st') => (.scheduled, st')

/-- One external mutation of the manager: a `.sendmessages` registration
(with the channel-resolution environment in effect at that call) or a
`.stoptask` cancellation. -/
inductive Op where
  | register (resolve : Int → Bool) (task : ScheduledTask)
  | cancel (name : String)

/-- Apply one operation to the manager state. -/
def applyOp (st : ManagerState) : Op → ManagerState
  | .register resolve task => (registerCmd resolve st task).2
  | .cancel name => (stop st name).2

/-- The manager state reached from startup by a sequence of operations. -/
def runOps (stored : List (String × RawEntry)) (ops : List Op) :
    ManagerState :=
  ops.foldl applyOp (initManager stored)

/-- The ids of the live repeat loops for a given name: spawned for that name
and never cancelled. -/
def liveFor (st : ManagerState) (n : String) : List Nat :=
  (st.spawnedAll.filter
    (fun p => p.1 = n ∧ ¬ p.2 ∈ st.cancelled)).map Prod.snd

/-!
## The `.sendmessages` argument parser and command
-/

/-- The format error message raised by `parse_definition`. -/
def formatErr : String :=
  "Format: <name>, \"\"\"<message>\"\"\", <channel>, <delay_seconds>"

/-- The triple-quote error message raised by `parse_definition`. -/
def tripleErr : String :=
  "Message must be wrapped in triple quotes (\"\"\" ... \"\"\")."

/-- The `ValueError` message of Python `float()` on a bad token. -/
def floatErr (tok : List Char) : String :=
  "could not convert string to float: " ++ String.mk tok

/-- The `ValueError` message of Python `int()` on a bad token. -/
def intErr (tok : List Char) : String :=
  "invalid literal for int() with base 10: " ++ String.mk tok

/-- Find the first occurrence of three consecutive double quotes in a
character list; returns the text before it and the text after it (Python
`str.find` for the closing delimiter). -/
def findTripleQuote : List Char → Option (List Char × List Char)
  | '"' :: '"' :: '"' :: rest => some ([], rest)
  | c :: rest => (findTripleQuote rest).map (fun p => (c :: p.1, p.2))
  | [] => none

/-- The channel-mention unwrapping in `parse_definition` (src/main.py lines
185-186): a token of the shape `<#...>` loses its wrapper. -/
def stripChannelMention (l : List Char) : List Char :=
  match l with
  | '<' :: '#' :: rest =>
    if rest.getLast? = some '>' then '<' :: '#' :: rest |>.drop 2 |>.dropLast
    else l
  | _ => l

/-- Embeds `parse_definition` (src/main.py lines 151-195).  Raised
`ValueError`s become `Except.error` with the raised message. -/
def parseDefinition (args : String) : Except String ScheduledTask :=
  match splitFirst ',' args.toList with
  | none => .error formatErr
  | some (nameTok, remainder0) =>
    let name := pyStrip (fun c => c = '"')
      (pyStrip (fun c => c.isWhitespace) nameTok)
    match pyLStrip (fun c => c.isWhitespace) remainder0 with
    | '"' :: '"' :: '"' :: afterOpen =>
      match findTripleQuote afterOpen with
      | none => .error tripleErr
      | some (message, afterClose) =>
        match pyLStrip (fun c => c.isWhitespace) afterClose with
        | ',' :: rest =>
          match splitFirst ',' (pyLStrip (fun c => c.isWhitespace) rest) with
          | none => .error formatErr
          | some (chTok, dlTok) =>
            let channelTok :=
              stripChannelMention (pyStrip (fun c => c.isWhitespace) chTok)
            let delayTok := pyStrip (fun c => c.isWhitespace) dlTok
            match pyFloatOfString (String.mk delayTok) with
            | none => .error (floatErr delayTok)
            | some delay =>
              match pyIntOfString (String.mk channelTok) with
              | none => .error (intErr channelTok)
              | some ch =>
                .ok ⟨String.mk name, ch, delay, String.mk message⟩
        | _ => .error formatErr
    | _ => .error tripleErr

/-- Embeds the full `.sendmessages` handling of a non-help argument string
(src/main.py lines 224-264): parse, then the registration path; a parse
error is caught by the `except` block and reported, with no state change. -/
def startSend (resolve : Int → Bool) (st : ManagerState) (args : String) :
    CmdOutcome × ManagerState :=
  match parseDefinition args with
  | .error e => (.errorMsg e, st)
  | .ok task => registerCmd resolve st task

/-!
## The repeat loop (`send_loop`, src/main.py lines 68-74)

The loop is modelled by its observable schedule: starting at time `0`, each
iteration attempts one send at the current time (`channel.send`), catches
any exception it raises (recording the printed error), and then sleeps for
`delay` seconds.  `send` gives the outcome of the attempt made at a given
time.  `send_loop_run delay send n` is the loop state after `n` complete
iterations; the loop itself has no exit, so an iteration exists for every
`n` and termination can only come from an external `cancel()`.
-/

/-- The observable state of one repeat loop. -/
structure LoopState where
  time : ℚ
  sends : List ℚ
  errors : List String
deriving DecidableEq, Repr

/-- One iteration of the `while True` body of `send_loop`: try the send
(catching and printing a raised exception), then sleep `delay`. -/
def send_loop_iter (delay : ℚ) (send : ℚ → Except String Unit)
    (st : LoopState) : LoopState :=
  match send st.time with
  | .ok _ =>
    { time := st.time + delay, sends := st.sends ++ [st.time],
      errors := st.errors }
  | .error e =>
    { time := st.time + delay, sends := st.sends ++ [st.time],
      errors := st.errors ++ [e] }

/-- The loop state after `n` iterations of `send_loop`. -/
def send_loop_run (delay : ℚ) (send : ℚ → Except String Unit) :
    Nat → LoopState
  | 0 => ⟨0, [], []⟩
  | n + 1 => send_loop_iter delay send (send_loop_run delay send n)

/-!
## A heap model for `TaskManager.list`

`list` returns `dict(self.tasks)` (src/main.py lines 101-102) — a fresh
dict, not the manager's own.  To state that, dicts are given identities: a
`Heap` is a list of dict cells addressed by position, the manager's task
dict lives at some address, and `list()` allocates a new cell holding a
copy of the current contents and returns its address.
-/

/-- A heap of dict cells, addressed by position. -/
structure Heap where
  cells : List (List (String × ScheduledTask))
deriving Repr

/-- Read the dict stored at an address. -/
def readDict (h : Heap) (a : Nat) : List (String × ScheduledTask) :=
  (h.cells.get? a).getD []

/-- Overwrite the dict stored at an address (in-place dict mutation). -/
def writeDict (h : Heap) (a : Nat) (d : List (String × ScheduledTask)) :
    Heap :=
  ⟨h.cells.set a d⟩

/-- Allocate a fresh dict cell; returns its address. -/
def allocDict (h : Heap) (d : List (String × ScheduledTask)) : Nat × Heap :=
  (h.cells.length, ⟨h.cells ++ [d]⟩)

/-- Embeds `TaskManager.list` (src/main.py lines 101-102): `dict(self.tasks)`
allocates a fresh dict holding a copy of the contents at `tasksRef`. -/
def listSnapshot (h : Heap) (tasksRef : Nat) : Nat × Heap :=
  allocDict h (readDict h tasksRef)


/-!
## Association-list dictionary lemmas
-/

theorem lookupD_nil {α : Type} (k : String) :
    lookupD ([] : List (String × α)) k = none := rfl

theorem lookupD_cons {α : Type} (k0 : String) (v0 : α)
    (rest : List (String × α)) (k : String) :
    lookupD ((k0, v0) :: rest) k =
      if k0 = k then some v0 else lookupD rest k := rfl

theorem lookupD_mem {α : Type} {d : List (String × α)} {k : String} {v : α}
    (h : lookupD d k = some v) : (k, v) ∈ d := by
  induction d with
  | nil => simp [lookupD] at h
  | cons p rest ih =>
    obtain ⟨k0, v0⟩ := p
    rw [lookupD_cons] at h
    by_cases hk : k0 = k
    · subst hk
      rw [if_pos rfl] at h
      cases h
      exact List.mem_cons_self _ _
    · rw [if_neg hk] at h
      exact List.mem_cons_of_mem _ (ih h)

theorem lookupD_append_of_none {α : Type} {d1 : List (String × α)}
    (d2 : List (String × α)) {k : String} (h : lookupD d1 k = none) :
    lookupD (d1 ++ d2) k = lookupD d2 k := by
  induction d1 with
  | nil => rfl
  | cons p rest ih =>
    obtain ⟨k0, v0⟩ := p
    rw [lookupD_cons] at h
    by_cases hk : k0 = k
    · rw [if_pos hk] at h
      cases h
    · rw [if_neg hk] at h
      rw [List.cons_append, lookupD_cons, if_neg hk]
      exact ih h

theorem lookupD_any_eq_isSome {α : Type} (d : List (String × α))
    (k : String) : d.any (fun p => p.1 = k) = (lookupD d k).isSome := by
  induction d with
  | nil => rfl
  | cons p rest ih =>
    obtain ⟨k0, v0⟩ := p
    rw [List.any_cons, lookupD_cons]
    by_cases hk : k0 = k
    · subst hk
      simp
    · simp [hk, ih]

theorem lookupD_replaceMap_self {α : Type} {d : List (String × α)}
    {k : String} (v : α) (h : (lookupD d k).isSome = true) :
    lookupD (d.map (fun p => if p.1 = k then (k, v) else p)) k = some v := by
  induction d with
  | nil => simp [lookupD] at h
  | cons p rest ih =>
    obtain ⟨k0, v0⟩ := p
    rw [lookupD_cons] at h
    by_cases hk : k0 = k
    · subst hk
      show lookupD ((if k0 = k0 then (k0, v) else (k0, v0)) :: _) k0 = some v
      rw [if_pos rfl, lookupD_cons, if_pos rfl]
    · rw [if_neg hk] at h
      show lookupD ((if k0 = k then (k, v) else (k0, v0)) :: _) k = some v
      rw [if_neg hk, lookupD_cons, if_neg hk]
      exact ih h

theorem lookupD_replaceMap_ne {α : Type} (d : List (String × α))
    {k k' : String} (v : α) (h : k' ≠ k) :
    lookupD (d.map (fun p => if p.1 = k then (k, v) else p)) k' =
      lookupD d k' := by
  induction d with
  | nil => rfl
  | cons p rest ih =>
    obtain ⟨k0, v0⟩ := p
    by_cases hk : k0 = k
    · subst hk
      show lookupD ((if k0 = k0 then (k0, v) else (k0, v0)) :: _) k' = _
      rw [if_pos rfl, lookupD_cons, lookupD_cons]
      rw [if_neg (fun hc => h hc.symm), if_neg (fun hc => h hc.symm)]
      exact ih
    · show lookupD ((if k0 = k then (k, v) else (k0, v0)) :: _) k' = _
      rw [if_neg hk, lookupD_cons, lookupD_cons]
      by_cases hk' : k0 = k'
      · rw [if_pos hk', if_pos hk']
      · rw [if_neg hk', if_neg hk']
        exact ih

theorem lookupD_dictInsert_self {α : Type} (d : List (String × α))
    (k : String) (v : α) : lookupD (dictInsert d k v) k = some v := by
  unfold dictInsert
  rw [lookupD_any_eq_isSome]
  by_cases h : (lookupD d k).isSome = true
  · rw [if_pos h]
    exact lookupD_replaceMap_self v h
  · rw [if_neg h]
    have h2 : lookupD d k = none := by
      cases hx : lookupD d k with
      | none => rfl
      | some w => rw [hx] at h; simp at h
    rw [lookupD_append_of_none _ h2, lookupD_cons, if_pos rfl]

theorem lookupD_dictInsert_ne {α : Type} (d : List (String × α))
    {k k' : String} (v : α) (h : k' ≠ k) :
    lookupD (dictInsert d k v) k' = lookupD d k' := by
  unfold dictInsert
  by_cases hany : d.any (fun p => p.1 = k) = true
  · rw [if_pos hany]
    exact lookupD_replaceMap_ne d v h
  · rw [if_neg hany]
    induction d with
    | nil =>
      rw [List.nil_append, lookupD_cons, if_neg (fun hc => h hc.symm)]
    | cons p rest ih =>
      obtain ⟨k0, v0⟩ := p
      rw [List.cons_append, lookupD_cons, lookupD_cons]
      rw [List.any_cons] at hany
      by_cases hk' : k0 = k'
      · rw [if_pos hk', if_pos hk']
      · rw [if_neg hk', if_neg hk']
        exact ih (fun hc => hany (by simp [hc]))

theorem mem_removeKey {α : Type} {d : List (String × α)} {k : String}
    {p : String × α} : p ∈ removeKey d k ↔ p ∈ d ∧ p.1 ≠ k := by
  simp [removeKey, List.mem_filter]

theorem lookupD_removeKey_ne {α : Type} (d : List (String × α))
    {k k' : String} (h : k' ≠ k) :
    lookupD (removeKey d k) k' = lookupD d k' := by
  induction d with
  | nil => rfl
  | cons p rest ih =>
    obtain ⟨k0, v0⟩ := p
    by_cases hk : k0 = k
    · subst hk
      have hne : ¬ k0 = k' := fun hc => h hc.symm
      show lookupD (List.filter _ ((k0, v0) :: rest)) k' = _
      rw [List.filter_cons]
      simp only [decide_eq_true_eq, hne]
      rw [lookupD_cons, if_neg hne]
      simpa [removeKey] using ih
    · show lookupD (List.filter _ ((k0, v0) :: rest)) k' = _
      rw [List.filter_cons]
      simp only [hk, decide_not, decide_eq_true_eq]
      rw [if_pos (by simp [hk])]
      rw [lookupD_cons, lookupD_cons]
      by_cases hk' : k0 = k'
      · rw [if_pos hk', if_pos hk']
      · rw [if_neg hk', if_neg hk']
        simpa [removeKey] using ih

theorem lookupD_removeKey_self {α : Type} (d : List (String × α))
    (k : String) : lookupD (removeKey d k) k = none := by
  induction d with
  | nil => rfl
  | cons p rest ih =>
    obtain ⟨k0, v0⟩ := p
    show lookupD (List.filter _ ((k0, v0) :: rest)) k = _
    rw [List.filter_cons]
    by_cases hk : k0 = k
    · simp only [hk, decide_not]
      rw [if_neg (by simp)]
      simpa [removeKey] using ih
    · simp only [decide_not]
      rw [if_pos (by simp [hk])]
      rw [lookupD_cons, if_neg hk]
      simpa [removeKey] using ih

theorem removeKey_eq_of_lookupD_none {α : Type} {d : List (String × α)}
    {k : String} (h : lookupD d k = none) : removeKey d k = d := by
  induction d with
  | nil => rfl
  | cons p rest ih =>
    obtain ⟨k0, v0⟩ := p
    rw [lookupD_cons] at h
    by_cases hk : k0 = k
    · rw [if_pos hk] at h
      cases h
    · rw [if_neg hk] at h
      show List.filter _ ((k0, v0) :: rest) = _
      rw [List.filter_cons, if_pos (by simp [hk])]
      rw [show List.filter _ rest = removeKey rest k from rfl, ih h]

theorem mem_dictInsert {α : Type} {d : List (String × α)} {k : String}
    {v : α} {p : String × α} (h : p ∈ dictInsert d k v) :
    p ∈ d ∨ p = (k, v) := by
  unfold dictInsert at h
  by_cases hany : d.any (fun q => q.1 = k) = true
  · rw [if_pos hany] at h
    obtain ⟨q, hq, hfq⟩ := List.mem_map.mp h
    by_cases hqk : q.1 = k
    · rw [if_pos hqk] at hfq
      exact Or.inr hfq.symm
    · rw [if_neg hqk] at hfq
      exact Or.inl (hfq ▸ hq)
  · rw [if_neg hany] at h
    rcases List.mem_append.mp h with h1 | h1
    · exact Or.inl h1
    · exact Or.inr (List.mem_singleton.mp h1)

/-!
## Persistence lemmas
-/

theorem loadTasks_cons (n : String) (raw : RawEntry)
    (rest : List (String × RawEntry)) :
    loadTasks ((n, raw) :: rest) =
      match parseStored n raw with
      | none => loadTasks rest
      | some t => (n, t) :: loadTasks rest := rfl

theorem parseStored_toConfig (n : String) (t : ScheduledTask) :
    parseStored n (toConfig t) =
      some ⟨n, t.channel_id, t.delay, t.message⟩ := rfl

theorem loadTasks_filterMap (stored : List (String × RawEntry)) :
    loadTasks stored =
      stored.filterMap
        (fun p => (parseStored p.1 p.2).map (fun u => (p.1, u))) := by
  induction stored with
  | nil => rfl
  | cons p rest ih =>
    obtain ⟨n, raw⟩ := p
    rw [loadTasks_cons, List.filterMap_cons]
    cases h : parseStored n raw with
    | none => simpa using ih
    | some t => simpa using ih

theorem mem_loadTasks {stored : List (String × RawEntry)} {n : String}
    {t : ScheduledTask} :
    (n, t) ∈ loadTasks stored ↔
      ∃ raw, (n, raw) ∈ stored ∧ parseStored n raw = some t := by
  rw [loadTasks_filterMap stored]
  simp only [List.mem_filterMap, Option.map_eq_some']
  constructor
  · rintro ⟨⟨n0, raw⟩, hmem, u, hu, heq⟩
    cases heq
    exact ⟨raw, hmem, hu⟩
  · rintro ⟨raw, hmem, hp⟩
    exact ⟨(n, raw), hmem, t, hp, rfl⟩

/-!
## Claim theorems: registration, persistence, cancellation
-/

/-- C1: for every definition `d` (with `d.delay_seconds > 0`) whose channel
resolves, `register(d)` (i.e. `TaskManager.start`) raises nothing, and an
immediate `get(d.name)` returns a definition equal to `d`. -/
theorem register_then_get_returns_task (resolve : Int → Bool)
    (st : ManagerState) (d : ScheduledTask) (h1 : 0 < d.delay)
    (h2 : resolve d.channel_id = true) :
    (start resolve st d).1 = none ∧
    getTask (start resolve st d).2 d.name = some d := by
  constructor
  · show (start resolve st d).1 = none
    unfold start
    rw [h2]
    rfl
  · unfold getTask start
    rw [h2]
    show lookupD (dictInsert st.tasks d.name d) d.name = some d
    exact lookupD_dictInsert_self _ _ _

theorem register_then_get_returns_task_witness :
    (0 : ℚ) < (5 : ℚ) ∧ (fun _ : Int => true) 42 = true ∧
    ((start (fun _ => true) (initManager [])
        ⟨"ad1", 42, 5, "hello"⟩).1 = none ∧
      getTask (start (fun _ => true) (initManager [])
        ⟨"ad1", 42, 5, "hello"⟩).2 "ad1" = some ⟨"ad1", 42, 5, "hello"⟩) :=
  ⟨by norm_num, rfl,
    register_then_get_returns_task (fun _ => true) (initManager [])
      ⟨"ad1", 42, 5, "hello"⟩ (by norm_num) rfl⟩

/-- C3 counterexample: a zero (non-positive) delay is NOT rejected by
`parse_definition`; the definition parses successfully, registration stores
it, and the stored definition violates `delay_seconds > 0`. -/
theorem nonpositive_delay_accepted_cex :
    parseDefinition "ad1, \"\"\"hi\"\"\", 42, 0" =
      Except.ok ⟨"ad1", 42, 0, "hi"⟩ ∧
    getTask (startSend (fun _ => true) (initManager [])
        "ad1, \"\"\"hi\"\"\", 42, 0").2 "ad1" =
      some ⟨"ad1", 42, 0, "hi"⟩ ∧
    ¬ (0 < (⟨"ad1", 42, 0, "hi"⟩ : ScheduledTask).delay) := by
  have hval : ((1 : Int) : ℚ) * (digitsVal ['0'] : ℚ) = 0 := by
    show ((1 : Int) : ℚ) * ((0 : ℕ) : ℚ) = 0
    norm_num
  have hparse : parseDefinition "ad1, \"\"\"hi\"\"\", 42, 0" =
      Except.ok ⟨"ad1", 42, 0, "hi"⟩ := by
    have h0 : parseDefinition "ad1, \"\"\"hi\"\"\", 42, 0" =
        Except.ok ⟨"ad1", 42,
          ((1 : Int) : ℚ) * (digitsVal ['0'] : ℚ), "hi"⟩ := rfl
    rw [h0, hval]
  refine ⟨hparse, ?_, by norm_num⟩
  unfold startSend
  rw [hparse]
  rfl

/-- C3 (amended): every registration input that fails to parse (missing
comma format, missing triple-quote delimiters, unparsable channel or delay
token) surfaces a malformed-definition error to the caller and mutates no
state; a parsable non-positive delay, however, is accepted. -/
theorem parse_failure_surfaced_no_mutation (resolve : Int → Bool)
    (st : ManagerState) (args e : String)
    (h : parseDefinition args = Except.error e) :
    startSend resolve st args = (CmdOutcome.errorMsg e, st) := by
  unfold startSend
  rw [h]

theorem parse_failure_surfaced_no_mutation_witness :
    parseDefinition "ad1, \"\"\"hi\"\"\", 42, abc" =
      Except.error "could not convert string to float: abc" ∧
    startSend (fun _ => true) (initManager [])
        "ad1, \"\"\"hi\"\"\", 42, abc" =
      (CmdOutcome.errorMsg "could not convert string to float: abc",
       initManager []) :=
  ⟨rfl, parse_failure_surfaced_no_mutation _ _ _ _ rfl⟩

/-- C4: when the channel does not resolve, `TaskManager.start` raises the
channel error and the state is unchanged (nothing stored, no loop spawned,
nothing persisted); through the command path the error is surfaced. -/
theorem channel_unavailable_no_mutation (resolve : Int → Bool)
    (st : ManagerState) (d : ScheduledTask)
    (h : resolve d.channel_id = false) :
    start resolve st d = (some (chanErr d.channel_id), st) ∧
    (lookupD st.tasks d.name = none →
      registerCmd resolve st d =
        (CmdOutcome.errorMsg (chanErr d.channel_id), st)) := by
  have h1 : start resolve st d = (some (chanErr d.channel_id), st) := by
    simp only [start, h, Bool.false_eq_true, if_false]
  refine ⟨h1, fun h2 => ?_⟩
  unfold registerCmd
  rw [h2, h1]

theorem channel_unavailable_no_mutation_witness :
    (fun _ : Int => false) 42 = false ∧
    lookupD (initManager []).tasks "ad1" = none ∧
    (start (fun _ => false) (initManager []) ⟨"ad1", 42, 5, "hello"⟩ =
      (some (chanErr 42), initManager []) ∧
     registerCmd (fun _ => false) (initManager []) ⟨"ad1", 42, 5, "hello"⟩ =
      (CmdOutcome.errorMsg (chanErr 42), initManager [])) := by
  refine ⟨rfl, rfl, ?_, ?_⟩
  · exact (channel_unavailable_no_mutation (fun _ => false) (initManager [])
      ⟨"ad1", 42, 5, "hello"⟩ rfl).1
  · exact (channel_unavailable_no_mutation (fun _ => false) (initManager [])
      ⟨"ad1", 42, 5, "hello"⟩ rfl).2 rfl

/-- C5: `cancel(n)` (i.e. `TaskManager.stop`) returns `true` exactly when
`n` was in the running set or the definition set, and when `n` is in
neither, it returns `false` and leaves the state completely unchanged. -/
theorem cancel_reports_removal_and_is_idempotent (st : ManagerState)
    (n : String) :
    (stop st n).1 =
      ((lookupD st.running n).isSome || (lookupD st.tasks n).isSome) ∧
    (lookupD st.running n = none → lookupD st.tasks n = none →
      stop st n = (false, st)) := by
  constructor
  · simp only [stop]
    by_cases hT : (lookupD st.tasks n).isSome = true
    · rw [if_pos hT, hT, Bool.or_true]
    · have hT' : (lookupD st.tasks n).isSome = false := by
        simpa using hT
      rw [if_neg hT, hT', Bool.or_false]
  · intro hR hT
    simp only [stop]
    rw [hR, hT, removeKey_eq_of_lookupD_none hR]
    simp

theorem cancel_reports_removal_and_is_idempotent_witness :
    lookupD (initManager []).running "nope" = none ∧
    lookupD (initManager []).tasks "nope" = none ∧
    stop (initManager []) "nope" = (false, initManager []) :=
  ⟨rfl, rfl,
    (cancel_reports_removal_and_is_idempotent (initManager []) "nope").2
      rfl rfl⟩

/-- C7: saving a mapping of definitions whose names agree with their keys
and reloading it reproduces the mapping exactly
(`load(save(definitions)) == definitions`). -/
theorem save_load_roundtrip (m : List (String × ScheduledTask))
    (h : ∀ p ∈ m, (p.2).name = p.1) :
    loadTasks (saveTasks m) = m := by
  induction m with
  | nil => rfl
  | cons p rest ih =>
    obtain ⟨n, t⟩ := p
    have hn : t.name = n := h (n, t) (List.mem_cons_self _ _)
    have hrest : ∀ q ∈ rest, (q.2).name = q.1 :=
      fun q hq => h q (List.mem_cons_of_mem _ hq)
    show loadTasks ((n, toConfig t) :: saveTasks rest) = (n, t) :: rest
    rw [loadTasks_cons, parseStored_toConfig]
    obtain ⟨tn, tc, td, tm⟩ := t
    cases hn
    rw [ih hrest]

theorem save_load_roundtrip_witness :
    (∀ p ∈ [("t", (⟨"t", 42, 5, "hi"⟩ : ScheduledTask))], (p.2).name = p.1) ∧
    loadTasks (saveTasks [("t", (⟨"t", 42, 5, "hi"⟩ : ScheduledTask))]) =
      [("t", (⟨"t", 42, 5, "hi"⟩ : ScheduledTask))] :=
  ⟨by decide, save_load_roundtrip _ (by decide)⟩

/-- C8: loading skips each malformed stored entry individually and returns
exactly the well-formed entries: the loaded list is the `filterMap` of the
per-entry parser over the store, and an entry is loaded iff its raw form is
present and parses. -/
theorem load_skips_malformed_entries (stored : List (String × RawEntry))
    (n : String) (t : ScheduledTask) :
    loadTasks stored =
      stored.filterMap
        (fun p => (parseStored p.1 p.2).map (fun u => (p.1, u))) ∧
    ((n, t) ∈ loadTasks stored ↔
      ∃ raw, (n, raw) ∈ stored ∧ parseStored n raw = some t) :=
  ⟨loadTasks_filterMap stored, mem_loadTasks⟩

/-- C10: on construction the manager loads exactly the well-formed persisted
definitions but spawns no repeat loops: the running set, the spawn history
and every per-name live-loop set are empty. -/
theorem startup_loads_definitions_without_loops
    (stored : List (String × RawEntry)) (n : String) (t : ScheduledTask) :
    (initManager stored).running = [] ∧
    (initManager stored).spawnedAll = [] ∧
    liveFor (initManager stored) n = [] ∧
    ((n, t) ∈ (initManager stored).tasks ↔
      ∃ raw, (n, raw) ∈ stored ∧ parseStored n raw = some t) :=
  ⟨rfl, rfl, rfl, mem_loadTasks⟩

/-!
## Claim theorems: the repeat loop and list snapshots
-/

/-- C6: whatever the outcomes of the individual send attempts (including any
raised transport errors, which the loop catches), after `n` iterations the
loop has made exactly `n` send attempts, at times `0, delay, 2*delay, ...`,
and is poised to make the next one: failures neither terminate the loop nor
disturb its cadence.  Since this holds for every `n`, the loop never exits
by itself; only external cancellation stops it. -/
theorem send_loop_keeps_cadence_under_failures (delay : ℚ)
    (send : ℚ → Except String Unit) (n : Nat) :
    (send_loop_run delay send n).sends =
      (List.range n).map (fun k : ℕ => (k : ℚ) * delay) ∧
    (send_loop_run delay send n).time = (n : ℚ) * delay := by
  induction n with
  | zero => simp [send_loop_run]
  | succ m ih =>
    obtain ⟨ih1, ih2⟩ := ih
    have hiter : ∀ st : LoopState,
        (send_loop_iter delay send st).sends = st.sends ++ [st.time] ∧
        (send_loop_iter delay send st).time = st.time + delay := by
      intro st
      unfold send_loop_iter
      cases send st.time <;> exact ⟨rfl, rfl⟩
    constructor
    · show (send_loop_iter delay send (send_loop_run delay send m)).sends = _
      rw [(hiter _).1, ih1, ih2, List.range_succ, List.map_append]
      simp
    · show (send_loop_iter delay send (send_loop_run delay send m)).time = _
      rw [(hiter _).2, ih2]
      push_cast
      ring

/-- C9: `list()` hands back a freshly-allocated snapshot of the task dict:
its address differs from the manager's own dict, its contents equal the
contents at call time, later writes through the manager's reference leave
the snapshot untouched, writes through the snapshot leave the manager's
dict untouched, and with zero tasks the snapshot is simply empty. -/
theorem list_returns_snapshot_copy (h : Heap) (r : Nat)
    (hr : r < h.cells.length) :
    (listSnapshot h r).1 ≠ r ∧
    readDict (listSnapshot h r).2 (listSnapshot h r).1 = readDict h r ∧
    (∀ d, readDict (writeDict (listSnapshot h r).2 r d)
        (listSnapshot h r).1 = readDict h r) ∧
    (∀ d, readDict (writeDict (listSnapshot h r).2 (listSnapshot h r).1 d) r
        = readDict h r) ∧
    (readDict h r = [] → readDict (listSnapshot h r).2 (listSnapshot h r).1
        = []) := by
  have ha : (listSnapshot h r).1 = h.cells.length := rfl
  have hcells : (listSnapshot h r).2.cells = h.cells ++ [readDict h r] := rfl
  have hne : h.cells.length ≠ r := (Nat.ne_of_lt hr).symm
  have hread : readDict (listSnapshot h r).2 (listSnapshot h r).1 =
      readDict h r := by
    show ((h.cells ++ [readDict h r]).get? h.cells.length).getD [] = _
    rw [List.get?_concat_length]
    rfl
  refine ⟨by rw [ha]; exact hne, hread, ?_, ?_, fun he => hread.trans he⟩
  · intro d
    show (((h.cells ++ [readDict h r]).set r d).get? h.cells.length).getD []
      = _
    rw [List.get?_set_ne _ _ (Ne.symm hne)]
    rw [List.get?_concat_length]
    rfl
  · intro d
    show (((h.cells ++ [readDict h r]).set h.cells.length d).get? r).getD []
      = _
    rw [List.get?_set_ne _ _ hne]
    show readDict ⟨h.cells ++ [readDict h r]⟩ r = _
    unfold readDict
    rw [List.get?_append hr]

theorem list_returns_snapshot_copy_witness :
    0 < (Heap.mk [[("a", (⟨"a", 1, 1, "m"⟩ : ScheduledTask))]]).cells.length
    ∧
    ((listSnapshot (Heap.mk [[("a", (⟨"a", 1, 1, "m"⟩ : ScheduledTask))]])
        0).1 ≠ 0 ∧
     readDict (listSnapshot
        (Heap.mk [[("a", (⟨"a", 1, 1, "m"⟩ : ScheduledTask))]]) 0).2
        (listSnapshot
        (Heap.mk [[("a", (⟨"a", 1, 1, "m"⟩ : ScheduledTask))]]) 0).1 =
       readDict (Heap.mk [[("a", (⟨"a", 1, 1, "m"⟩ : ScheduledTask))]]) 0 ∧
     (∀ d, readDict (writeDict (listSnapshot
        (Heap.mk [[("a", (⟨"a", 1, 1, "m"⟩ : ScheduledTask))]]) 0).2 0 d)
        (listSnapshot
        (Heap.mk [[("a", (⟨"a", 1, 1, "m"⟩ : ScheduledTask))]]) 0).1 =
       readDict (Heap.mk [[("a", (⟨"a", 1, 1, "m"⟩ : ScheduledTask))]]) 0) ∧
     (∀ d, readDict (writeDict (listSnapshot
        (Heap.mk [[("a", (⟨"a", 1, 1, "m"⟩ : ScheduledTask))]]) 0).2
        (listSnapshot
        (Heap.mk [[("a", (⟨"a", 1, 1, "m"⟩ : ScheduledTask))]]) 0).1 d) 0 =
       readDict (Heap.mk [[("a", (⟨"a", 1, 1, "m"⟩ : ScheduledTask))]]) 0) ∧
     (readDict (Heap.mk [[("a", (⟨"a", 1, 1, "m"⟩ : ScheduledTask))]]) 0 = []
       → readDict (listSnapshot
        (Heap.mk [[("a", (⟨"a", 1, 1, "m"⟩ : ScheduledTask))]]) 0).2
        (listSnapshot
        (Heap.mk [[("a", (⟨"a", 1, 1, "m"⟩ : ScheduledTask))]]) 0).1 = []))
    :=
  ⟨Nat.zero_lt_one,
    list_returns_snapshot_copy
      (Heap.mk [[("a", (⟨"a", 1, 1, "m"⟩ : ScheduledTask))]]) 0
      Nat.zero_lt_one⟩

/-!
## The manager invariant: loop bookkeeping

`MgrInv` ties the explicit asyncio bookkeeping together: spawned loop ids are
below the counter and pairwise distinct, cancelled ids were spawned with
ids below the counter, every running entry was spawned and has a stored
definition, and every never-cancelled loop is exactly the one registered
under its name in `running`.  It holds at startup and is preserved by the
`.sendmessages` and `.stoptask` commands; from it, at most one live loop
per name follows.
-/

structure MgrInv (st : ManagerState) : Prop where
  spawnedLt : ∀ p ∈ st.spawnedAll, p.2 < st.nextId
  cancelledLt : ∀ i ∈ st.cancelled, i < st.nextId
  spawnedNodup : (st.spawnedAll.map Prod.snd).Nodup
  runningSpawned : ∀ p ∈ st.running, p ∈ st.spawnedAll
  runningHasTask : ∀ p ∈ st.running, (lookupD st.tasks p.1).isSome = true
  liveRunning : ∀ p ∈ st.spawnedAll, p.2 ∉ st.cancelled →
    lookupD st.running p.1 = some p.2

theorem inv_init (stored : List (String × RawEntry)) :
    MgrInv (initManager stored) := by
  refine ⟨?_, ?_, ?_, ?_, ?_, ?_⟩ <;> simp [initManager]

theorem stop_eq_pos (st : ManagerState) (n : String)
    (hT : (lookupD st.tasks n).isSome = true) :
    stop st n =
      (true,
       { st with running := removeKey st.running n,
                 cancelled := st.cancelled ++ (lookupD st.running n).toList,
                 tasks := removeKey st.tasks n,
                 store := saveTasks (removeKey st.tasks n) }) := by
  unfold stop
  rw [if_pos hT]

theorem stop_eq_neg (st : ManagerState) (n : String)
    (hT : (lookupD st.tasks n).isSome = false) :
    stop st n =
      ((lookupD st.running n).isSome,
       { st with running := removeKey st.running n,
                 cancelled := st.cancelled ++ (lookupD st.running n).toList })
    := by
  unfold stop
  rw [if_neg (by rw [hT]; exact Bool.false_ne_true)]

theorem inv_stop (st : ManagerState) (n : String) (h : MgrInv st) :
    MgrInv (stop st n).2 := by
  have core : ∀ i ∈ st.cancelled ++ (lookupD st.running n).toList,
      i < st.nextId := by
    intro i hi
    rcases List.mem_append.mp hi with hi | hi
    · exact h.cancelledLt i hi
    · cases hx : lookupD st.running n with
      | none => rw [hx] at hi; cases hi
      | some j =>
        rw [hx] at hi
        simp only [Option.toList_some, List.mem_singleton] at hi
        subst hi
        exact h.spawnedLt _ (h.runningSpawned _ (lookupD_mem hx))
  have live : ∀ p ∈ st.spawnedAll,
      p.2 ∉ st.cancelled ++ (lookupD st.running n).toList →
      lookupD (removeKey st.running n) p.1 = some p.2 := by
    intro p hp hpc
    have hpc1 : p.2 ∉ st.cancelled :=
      fun hc => hpc (List.mem_append.mpr (Or.inl hc))
    have hold := h.liveRunning p hp hpc1
    by_cases hpn : p.1 = n
    · exfalso
      rw [hpn] at hold
      apply hpc
      apply List.mem_append.mpr
      right
      rw [hold]
      simp
    · rw [lookupD_removeKey_ne _ hpn]
      exact hold
  by_cases hT : (lookupD st.tasks n).isSome = true
  · rw [stop_eq_pos st n hT]
    constructor
    · exact h.spawnedLt
    · exact core
    · exact h.spawnedNodup
    · intro p hp
      exact h.runningSpawned p (mem_removeKey.mp hp).1
    · intro p hp
      obtain ⟨hp1, hp2⟩ := mem_removeKey.mp hp
      rw [lookupD_removeKey_ne _ hp2]
      exact h.runningHasTask p hp1
    · exact live
  · rw [stop_eq_neg st n (by simpa using hT)]
    constructor
    · exact h.spawnedLt
    · exact core
    · exact h.spawnedNodup
    · intro p hp
      exact h.runningSpawned p (mem_removeKey.mp hp).1
    · intro p hp
      exact h.runningHasTask p (mem_removeKey.mp hp).1
    · exact live

theorem start_eq_fresh (resolve : Int → Bool) (st : ManagerState)
    (task : ScheduledTask) (hR : resolve task.channel_id = true)
    (hrun : lookupD st.running task.name = none) :
    start resolve st task =
      (none,
       { running := dictInsert st.running task.name st.nextId,
         tasks := dictInsert st.tasks task.name task,
         store := saveTasks (dictInsert st.tasks task.name task),
         nextId := st.nextId + 1,
         cancelled := st.cancelled,
         spawnedAll := st.spawnedAll ++ [(task.name, st.nextId)] }) := by
  unfold start
  rw [hR, hrun]
  simp

theorem inv_registerCmd (resolve : Int → Bool) (st : ManagerState)
    (task : ScheduledTask) (h : MgrInv st) :
    MgrInv (registerCmd resolve st task).2 := by
  unfold registerCmd
  cases hT : lookupD st.tasks task.name with
  | some t0 => exact h
  | none =>
    have hrun : lookupD st.running task.name = none := by
      cases hx : lookupD st.running task.name with
      | none => rfl
      | some j =>
        have hs := h.runningHasTask _ (lookupD_mem hx)
        rw [hT] at hs
        cases hs
    cases hR : resolve task.channel_id with
    | false =>
      have hs : start resolve st task =
          (some (chanErr task.channel_id), st) := by
        unfold start
        rw [hR]
        rfl
      rw [hs]
      exact h
    | true =>
      rw [start_eq_fresh resolve st task hR hrun]
      constructor
      · intro p hp
        rcases List.mem_append.mp hp with hp | hp
        · exact Nat.lt_succ_of_lt (h.spawnedLt p hp)
        · rw [List.mem_singleton.mp hp]
          exact Nat.lt_succ_self _
      · intro i hi
        exact Nat.lt_succ_of_lt (h.cancelledLt i hi)
      · rw [List.map_append]
        rw [List.nodup_append]
        refine ⟨h.spawnedNodup, List.nodup_singleton _, ?_⟩
        intro a ha hb
        simp only [List.map_cons, List.map_nil, List.mem_singleton] at hb
        obtain ⟨p, hp, hpa⟩ := List.mem_map.mp ha
        have := h.spawnedLt p hp
        rw [hpa, hb] at this
        exact absurd this (Nat.lt_irrefl _)
      · intro p hp
        rcases mem_dictInsert hp with hp | hp
        · exact List.mem_append.mpr (Or.inl (h.runningSpawned p hp))
        · exact List.mem_append.mpr (Or.inr (by rw [hp]; simp))
      · intro p hp
        rcases mem_dictInsert hp with hp | hp
        · by_cases hpn : p.1 = task.name
          · rw [hpn, lookupD_dictInsert_self]
            rfl
          · rw [lookupD_dictInsert_ne _ _ hpn]
            exact h.runningHasTask p hp
        · rw [hp]
          show (lookupD (dictInsert st.tasks task.name task)
            task.name).isSome = true
          rw [lookupD_dictInsert_self]
          rfl
      · intro p hp hpc
        rcases List.mem_append.mp hp with hp | hp
        · have hold := h.liveRunning p hp hpc
          by_cases hpn : p.1 = task.name
          · rw [hpn, hrun] at hold
            cases hold
          · rw [lookupD_dictInsert_ne _ _ hpn]
            exact hold
        · rw [List.mem_singleton.mp hp]
          exact lookupD_dictInsert_self _ _ _

theorem inv_applyOp (st : ManagerState) (op : Op) (h : MgrInv st) :
    MgrInv (applyOp st op) := by
  cases op with
  | register resolve task => exact inv_registerCmd resolve st task h
  | cancel n => exact inv_stop st n h

theorem inv_foldl (ops : List Op) (st : ManagerState) (h : MgrInv st) :
    MgrInv (ops.foldl applyOp st) := by
  induction ops generalizing st with
  | nil => exact h
  | cons op rest ih => exact ih _ (inv_applyOp st op h)

theorem inv_runOps (stored : List (String × RawEntry)) (ops : List Op) :
    MgrInv (runOps stored ops) :=
  inv_foldl ops _ (inv_init stored)

theorem length_le_one_of_nodup_const {l : List Nat} {c : Nat}
    (hn : l.Nodup) (hc : ∀ x ∈ l, x = c) : l.length ≤ 1 := by
  cases l with
  | nil => simp
  | cons a t =>
    cases t with
    | nil => simp
    | cons b t2 =>
      have ha := hc a (by simp)
      have hb := hc b (by simp)
      rw [List.nodup_cons] at hn
      exact absurd (by rw [ha, hb]; simp : a ∈ b :: t2) hn.1

theorem liveFor_length_le (st : ManagerState) (h : MgrInv st) (n : String) :
    (liveFor st n).length ≤ 1 := by
  unfold liveFor
  cases hx : lookupD st.running n with
  | none =>
    have hnil : st.spawnedAll.filter
        (fun p => p.1 = n ∧ ¬ p.2 ∈ st.cancelled) = [] := by
      rw [List.filter_eq_nil]
      intro p hp hpred
      obtain ⟨h1, h2⟩ := of_decide_eq_true hpred
      have hlive := h.liveRunning p hp h2
      rw [h1, hx] at hlive
      cases hlive
    rw [hnil]
    simp
  | some j =>
    apply length_le_one_of_nodup_const (c := j)
    · exact h.spawnedNodup.sublist ((List.filter_sublist _).map Prod.snd)
    · intro x hmx
      obtain ⟨p, hp, hpx⟩ := List.mem_map.mp hmx
      obtain ⟨hp1, hp2⟩ := List.mem_filter.mp hp
      obtain ⟨hn1, hn2⟩ := of_decide_eq_true hp2
      have hlive := h.liveRunning p hp1 hn2
      rw [hn1, hx] at hlive
      rw [← hpx]
      exact Option.some_injective _ hlive.symm

/-- C2: in every state reachable from startup, when a task named `n` is
active, any further registration under `n` (whatever its payload or channel
environment) is rejected with the name-conflict reply and the state is
returned unchanged; moreover at most one live repeat loop exists for `n`. -/
theorem active_name_conflict_and_single_live_loop
    (stored : List (String × RawEntry)) (ops : List Op) (n : String)
    (h : (getTask (runOps stored ops) n).isSome = true) :
    (∀ resolve d, d.name = n →
      registerCmd resolve (runOps stored ops) d =
        (CmdOutcome.conflictMsg, runOps stored ops)) ∧
    (liveFor (runOps stored ops) n).length ≤ 1 := by
  constructor
  · intro resolve d hd
    obtain ⟨t0, ht0⟩ := Option.isSome_iff_exists.mp h
    have hl : lookupD (runOps stored ops).tasks d.name = some t0 := by
      rw [hd]
      exact ht0
    unfold registerCmd
    rw [hl]
  · exact liveFor_length_le _ (inv_runOps stored ops) n

theorem active_name_conflict_and_single_live_loop_witness :
    (getTask (runOps []
        [Op.register (fun _ => true) ⟨"ad1", 42, 5, "hello"⟩])
      "ad1").isSome = true ∧
    registerCmd (fun _ => false)
        (runOps [] [Op.register (fun _ => true) ⟨"ad1", 42, 5, "hello"⟩])
        ⟨"ad1", 7, 1, "x"⟩ =
      (CmdOutcome.conflictMsg,
       runOps [] [Op.register (fun _ => true) ⟨"ad1", 42, 5, "hello"⟩]) ∧
    (liveFor (runOps []
        [Op.register (fun _ => true) ⟨"ad1", 42, 5, "hello"⟩])
      "ad1").length ≤ 1 :=
  ⟨rfl,
    (active_name_conflict_and_single_live_loop []
      [Op.register (fun _ => true) ⟨"ad1", 42, 5, "hello"⟩]
      "ad1" rfl).1 (fun _ => false) ⟨"ad1", 7, 1, "x"⟩ rfl,
    (active_name_conflict_and_single_live_loop []
      [Op.register (fun _ => true) ⟨"ad1", 42, 5, "hello"⟩]
      "ad1" rfl).2⟩
